import Mathlib

/-!
Verification of the query-resolution engine of `PizzaHut-chatbot.py`.

Strings are modelled as `List Char`.  Python's `str.lower` is modelled on the
ASCII range by `Char.toLower` (the inputs under consideration are ASCII).
Python floats are avoided: the similarity ratio `2*M/T` computed by
`difflib.SequenceMatcher.ratio` is represented by the exact integer pair
`(scoreNum, scoreDen)`, and every comparison the Python code performs on these
float ratios is performed here by cross multiplication of the exact values.
Timestamps (`datetime.now()`) are abstracted as an opaque `Nat` clock value
supplied by the caller.  File persistence (`save_data`) serialises the
`self.data` attribute: while that attribute is bound it performs I/O only and
leaves the in-memory store unchanged, but during `__init__` it is still
unbound, so the call raises `AttributeError`; `save_data`,
`create_default_data` and `load_data` are therefore modelled as fallible
functions of the attribute's state.
-/

set_option maxRecDepth 40000

namespace PizzaBot

/-- Python's substring test `needle in hay`. -/
def hasSub (needle : List Char) : List Char → Bool
  | [] => List.isPrefixOf needle []
  | c :: t => List.isPrefixOf needle (c :: t) || hasSub needle t

/-- Python's `str.lower()`, restricted to the ASCII range. -/
def pyLower (s : List Char) : List Char := s.map Char.toLower

/-- Python's `str.upper()`, restricted to the ASCII range (used by
`get_menu_by_category`'s header line). -/
def pyUpper (s : List Char) : List Char := s.map Char.toUpper

/-- ASCII whitespace recognised by Python's `str.strip()`. -/
def pySpace (c : Char) : Bool :=
  c = ' ' || c = '\t' || c = '\n' || c = '\x0d' || c = '\x0b' || c = '\x0c'

/-- Python's `str.strip()`: remove leading and trailing whitespace. -/
def pyStrip (s : List Char) : List Char :=
  ((s.dropWhile pySpace).reverse.dropWhile pySpace).reverse

/-- Python's string comparison `x < y`: lexicographic by code point, a proper
prefix being smaller than the longer string. -/
def strLtB : List Char → List Char → Bool
  | _, [] => false
  | [], _ :: _ => true
  | a :: as, b :: bs =>
    if a < b then true
    else if b < a then false
    else strLtB as bs

/-- Decimal digits of `n`, as Python's `str(n)` / `repr(n)` produce them. -/
def natStr (n : Nat) : List Char := Nat.toDigits 10 n

/-- Python's `f"{n:03d}"`: decimal form of `n`, zero-padded on the left to at
least three characters. -/
def fmt03 (n : Nat) : List Char :=
  List.replicate (3 - (natStr n).length) '0' ++ natStr n

/-! ### The `difflib` similarity model

`difflib.get_close_matches(word, possibilities, n=1, cutoff=0.6)` is built on
`SequenceMatcher` with `a = x` (a candidate) and `b = word`.  For the inputs at
hand (`len b < 200`) the autojunk heuristic is inactive and there is no junk,
so `find_longest_match` returns, among all maximal matching blocks, the one
starting earliest in `a` and, among those, earliest in `b` (this is the
behaviour its documentation promises and its dynamic program implements).
`get_matching_blocks` then recurses on the parts before and after that block,
and `ratio()` is `2*M/T` where `M` is the total size of the recursively found
blocks and `T = len a + len b`. -/

/-- Length of the longest common prefix of two strings. -/
def commonPrefixLen : List Char → List Char → Nat
  | a :: as, b :: bs => if a = b then commonPrefixLen as bs + 1 else 0
  | _, _ => 0

/-- Model of `SequenceMatcher.find_longest_match` on junk-free input:
the triple `(i, j, k)` of the maximal matching block `a[i:i+k] = b[j:j+k]`,
tie-broken by least `i`, then least `j`.  Implemented, like the Python
dynamic program, as a fold that replaces the current best only on a strictly
longer block, scanning `i` then `j` in increasing order. -/
def flm (a b : List Char) : Nat × Nat × Nat :=
  (List.range a.length).foldl
    (fun best i =>
      (List.range b.length).foldl
        (fun best j =>
          let k := commonPrefixLen (a.drop i) (b.drop j)
          if best.2.2 < k then (i, j, k) else best)
        best)
    (0, 0, 0)

/-- Fuel-indexed model of the total matched size
`sum(t.size for t in get_matching_blocks())`: take the longest matching block
and recurse on the two remaining corners.  The fuel (any bound on `a.length`)
only forces structural recursion; `matchesM` instantiates it. -/
def matchesMF : Nat → List Char → List Char → Nat
  | 0, _, _ => 0
  | fuel+1, a, b =>
    let r := flm a b
    if r.2.2 = 0 then 0
    else
      matchesMF fuel (a.take r.1) (b.take r.2.1) + r.2.2 +
      matchesMF fuel (a.drop (r.1 + r.2.2)) (b.drop (r.2.1 + r.2.2))

/-- Total size `M` of the matching blocks found by `SequenceMatcher` for
`a = x`, `b = w`. -/
def matchesM (a b : List Char) : Nat := matchesMF a.length a b

/-- Numerator of the exact similarity ratio (`2*M`, or `1` for the
`_calculate_ratio` convention `ratio('','') = 1.0`). -/
def scoreNum (x w : List Char) : Nat :=
  if x.length + w.length = 0 then 1 else 2 * matchesM x w

/-- Denominator of the exact similarity ratio (`len x + len w`, or `1` when
both strings are empty). -/
def scoreDen (x w : List Char) : Nat :=
  if x.length + w.length = 0 then 1 else x.length + w.length

/-- The similarity score as a rational number, `2*M/T` (with the empty-empty
case scoring `1`, as in `difflib._calculate_ratio`). -/
def ratioQ (x w : List Char) : ℚ := (scoreNum x w : ℚ) / (scoreDen x w : ℚ)

/-- The cutoff test `ratio(x, w) >= 0.6` of `get_close_matches`, by cross
multiplication (`difflib`'s `real_quick_ratio`/`quick_ratio` pre-tests are
upper bounds on `ratio`, so the conjunction of the three tests is equivalent
to this one). -/
def cutoffOK (x w : List Char) : Bool :=
  3 * scoreDen x w ≤ 5 * scoreNum x w

/-- Comparison `ratio(x, w) < ratio(y, w)` of the two float scores, by cross
multiplication of the exact values. -/
def scoreLtB (w x y : List Char) : Bool :=
  scoreNum x w * scoreDen y w < scoreNum y w * scoreDen x w

/-- Python tuple comparison `(ratio(x,w), x) > (ratio(y,w), y)`, the order
`heapq.nlargest` / `max` uses on the scored candidates of
`get_close_matches`. -/
def scoreGtB (w x y : List Char) : Bool :=
  if scoreLtB w y x then true
  else if scoreLtB w x y then false
  else strLtB y x

/-- One step of Python's `max`: keep the current maximum unless the next
tuple compares strictly greater. -/
def maxStep (w : List Char) (acc : Option (List Char)) (x : List Char) :
    Option (List Char) :=
  match acc with
  | none => some x
  | some b => if scoreGtB w x b then some x else some b

/-- Python's `max` over the scored candidates (`heapq.nlargest(1, result)`):
the leftmost maximal tuple wins. -/
def maxCand (w : List Char) (l : List (List Char)) : Option (List Char) :=
  l.foldl (maxStep w) none

/-- Model of `difflib.get_close_matches(word, possibilities, n=1, cutoff=0.6)`,
returning the single best match if any candidate clears the cutoff. -/
def getCloseMatches1 (word : List Char) (possibilities : List (List Char)) :
    Option (List Char) :=
  maxCand word (possibilities.filter (fun x => cutoffOK x word))

/-! ### The chatbot's data model

The JSON store `self.data` is modelled by `ChatData`.  Dynamic dictionary
records become structures; the `menu` object (whose keys are tested by
`category not in self.data["menu"]`) becomes an association list in insertion
order; `restaurant_info["hours"]` (read via `hours.get("monday", ...)`)
likewise.  Numeric prices and fees are modelled as `Nat`, item totals as `ℚ`.
-/

/-- A menu item; pizzas use the three price tiers, sides and drinks the flat
`price` field. -/
structure MenuItem where
  id : Nat := 0
  name : List Char := []
  description : List Char := []
  priceRegular : Nat := 0
  priceLarge : Nat := 0
  priceFamily : Nat := 0
  price : Nat := 0

/-- A delivery zone record. -/
structure Zone where
  area : List Char := []
  delivery_fee : Nat := 0
  min_order : Nat := 0
  estimated_time : List Char := []

/-- A promotion record; `is_active` models `p.get("is_active", False)`. -/
structure Promo where
  title : List Char := []
  description : List Char := []
  is_active : Bool := false

/-- A learned question/answer pair. -/
structure QA where
  question : List Char := []
  answer : List Char := []
  category : List Char := []
  added_date : Nat := 0

/-- An item of a customer order; only its `total` is read (for the subtotal). -/
structure OrderItem where
  total : ℚ := 0

/-- A recorded customer order. -/
structure Order where
  order_id : List Char := []
  customer_name : List Char := []
  phone : List Char := []
  address : List Char := []
  items : List OrderItem := []
  subtotal : ℚ := 0
  delivery_fee : Nat := 0
  status : List Char := []
  order_time : Nat := 0
  estimated_delivery : Nat := 0

/-- The caller-supplied `customer_info` dict of `add_customer_order`. -/
structure CustomerInfo where
  name : List Char := []
  phone : List Char := []
  address : List Char := []

/-- A customer feedback record. -/
structure Feedback where
  order_id : List Char := []
  rating : Nat := 0
  comment : List Char := []
  feedback_date : Nat := 0

/-- An entry of `analytics["popular_items"]`. -/
structure PopularItem where
  item_id : Nat := 0
  order_count : Nat := 0

/-- The `analytics` object. -/
structure Analytics where
  popular_items : List PopularItem := []
  peak_hours : List (List Char) := []
  busiest_days : List (List Char) := []

/-- The `restaurant_info` object; `hours` is an association list read through
`hours.get("monday", default)`. -/
structure RestaurantInfo where
  name : List Char := []
  phone : List Char := []
  hours : List (List Char × List Char) := []

/-- The whole persisted store `self.data`. -/
structure ChatData where
  restaurant_info : RestaurantInfo := {}
  menu : List (List Char × List MenuItem) := []
  delivery_zones : List Zone := []
  promotions : List Promo := []
  orders : List Order := []
  questions : List QA := []
  customer_feedback : List Feedback := []
  analytics : Analytics := {}
  staff_notes : List (List Char) := []

/-- The start-up exception relevant here: reading the still-unbound
`self.data` attribute raises `AttributeError`. -/
inductive PyError where
  | attributeError
deriving DecidableEq

/-- The literal `default_data` dictionary that `create_default_data`
builds. -/
def default_data : ChatData where
  restaurant_info :=
    { name := "Pizza Hut".toList
      phone := "(123) 456-7890".toList
      hours := [("monday".toList, "11:00 AM - 11:00 PM".toList)] }
  menu := [("pizzas".toList, []), ("sides".toList, []), ("drinks".toList, [])]
  delivery_zones := []
  promotions := []
  orders := []
  questions := []
  customer_feedback := []
  analytics := { popular_items := [], peak_hours := [], busiest_days := [] }
  staff_notes := []

/-- Model of `save_data`: `json.dump(self.data, file)` reads the `self.data`
attribute.  With the attribute bound it writes the file and leaves the
in-memory store unchanged; with it still unbound (as during `__init__`) it
raises `AttributeError`. -/
def save_data (self_data : Option ChatData) : Except PyError Unit :=
  match self_data with
  | some _ => Except.ok ()
  | none => Except.error PyError.attributeError

/-- Model of `create_default_data`: build the default dictionary, call
`self.save_data()` — which serialises the `self.data` attribute as it stands
at that moment — and only then return the default. -/
def create_default_data (self_data : Option ChatData) :
    Except PyError ChatData :=
  match save_data self_data with
  | Except.ok _ => Except.ok default_data
  | Except.error e => Except.error e

/-- Model of `load_data`: the first argument is `some d` when the data file
exists holding `d`, and `none` when opening raises `FileNotFoundError`, in
which case `create_default_data` runs with the `self.data` attribute as it
stands. -/
def load_data (file : Option ChatData) (self_data : Option ChatData) :
    Except PyError ChatData :=
  match file with
  | some d => Except.ok d
  | none => create_default_data self_data

/-- Model of `__init__`: `self.data = self.load_data()` runs before any
assignment to `self.data`, so the attribute is unbound during the load. -/
def chatbot_init (file : Option ChatData) : Except PyError ChatData :=
  load_data file none

/-- Model of `get_menu_by_category`. -/
def get_menu_by_category (d : ChatData) (category : List Char) : List Char :=
  match List.lookup category d.menu with
  | none => "Sorry, that category doesn\x27t exist.".toList
  | some items =>
    if items.isEmpty then
      "No ".toList ++ category ++ " available at the moment.".toList
    else
      ("🍕 ".toList ++ pyUpper category ++ ":\n".toList) ++
      items.foldl
        (fun acc item =>
          if category = "pizzas".toList then
            let prices := "RM".toList ++ natStr item.priceRegular ++
              "/RM".toList ++ natStr item.priceLarge ++
              "/RM".toList ++ natStr item.priceFamily
            acc ++ "• ".toList ++ item.name ++ " - ".toList ++ prices ++
              " (R/L/F)\n  ".toList ++ item.description ++ "\n".toList
          else
            acc ++ "• ".toList ++ item.name ++ " - RM".toList ++
              natStr item.price ++ "\n  ".toList ++ item.description ++
              "\n".toList)
        []

/-- Model of `check_delivery_area`: first zone whose (lowercased) area name
contains the (lowercased) queried area, else the phone fallback. -/
def check_delivery_area (d : ChatData) (area : List Char) : List Char :=
  match d.delivery_zones.find? (fun z => hasSub (pyLower area) (pyLower z.area)) with
  | some zone =>
    let feeText :=
      if zone.delivery_fee = 0 then "FREE".toList
      else "RM".toList ++ natStr zone.delivery_fee
    "📍 ".toList ++ zone.area ++ ": Delivery ".toList ++ feeText ++
      " (Min order: RM".toList ++ natStr zone.min_order ++ ", Time: ".toList ++
      zone.estimated_time ++ ")".toList
  | none =>
    "Please call us to check if we deliver to your area: ".toList ++
      d.restaurant_info.phone

/-- Model of `get_active_promotions`. -/
def get_active_promotions (d : ChatData) : List Char :=
  let active := d.promotions.filter (fun p => p.is_active)
  if active.isEmpty then "No active promotions at the moment.".toList
  else
    "🎉 CURRENT DEALS:\n".toList ++
    active.foldl
      (fun acc p =>
        acc ++ "• ".toList ++ p.title ++ ": ".toList ++ p.description ++
          "\n".toList)
      []

/-- Model of `get_popular_items`. -/
def get_popular_items (d : ChatData) : List Char :=
  if d.analytics.popular_items.isEmpty then
    "Our most popular items are Pepperoni and Margherita pizzas!".toList
  else
    "🔥 POPULAR ITEMS:\n".toList ++
    (d.analytics.popular_items.take 3).foldl
      (fun acc it =>
        let pizzas := (List.lookup "pizzas".toList d.menu).getD []
        let itemName :=
          match pizzas.find? (fun p => p.id = it.item_id) with
          | some p => p.name
          | none => "Unknown Item".toList
        acc ++ "• ".toList ++ itemName ++ " (".toList ++
          natStr it.order_count ++ " orders)\n".toList)
      []

/-- Model of `add_customer_order`; `now` is the abstract current time and the
estimated delivery is forty minutes later.  Returns the generated order id
together with the updated store (here `self.data` is bound, so the
`save_data()` call succeeds and leaves the in-memory store unchanged). -/
def add_customer_order (d : ChatData) (customer_info : CustomerInfo)
    (items : List OrderItem) (now : Nat) : List Char × ChatData :=
  let order_id := "ORD".toList ++ fmt03 (d.orders.length + 1)
  let newOrder : Order :=
    { order_id := order_id
      customer_name := customer_info.name
      phone := customer_info.phone
      address := customer_info.address
      items := items
      subtotal := (items.map (fun item => item.total)).sum
      delivery_fee := 0
      status := "received".toList
      order_time := now
      estimated_delivery := now + 40 }
  (order_id, { d with orders := d.orders ++ [newOrder] })

/-- Model of `add_feedback`. -/
def add_feedback (d : ChatData) (order_id : List Char) (rating : Nat)
    (comment : List Char) (now : Nat) : List Char × ChatData :=
  let fb : Feedback :=
    { order_id := order_id, rating := rating, comment := comment
      feedback_date := now }
  ("Thank you for your feedback!".toList,
    { d with customer_feedback := d.customer_feedback ++ [fb] })

/-- Model of `learn_new_response`: append the lowercased question with the
given answer, category `"general"` and the current timestamp. -/
def learn_new_response (d : ChatData) (question answer : List Char)
    (now : Nat) : ChatData :=
  { d with
    questions := d.questions ++
      [{ question := pyLower question
         answer := answer
         category := "general".toList
         added_date := now }] }

/-! ### The query resolver `handle_query`

`handle_query` is a chain of early-`return` conditionals over the lowercased
input, then the knowledge-base fuzzy fallback.  The chain is split at the
delivery rule: should its inner `for` loop fall through (it cannot, since the
guarding `any(...)` succeeded), control continues at the promotion check, so
that continuation is the separate definition `laterRules`. -/

/-- The fixed area whitelist of the delivery rule. -/
def deliveryAreas : List (List Char) :=
  ["klcc".toList, "pj".toList, "subang".toList, "petaling".toList]

/-- The keyword list of the promotion rule. -/
def promoWords : List (List Char) :=
  ["deal".toList, "promotion".toList, "discount".toList, "offer".toList]

/-- The hours response, `f"We're open: {hours.get('monday', 'Please call for
hours')}"`. -/
def hoursResponse (d : ChatData) : List Char :=
  "We\x27re open: ".toList ++
    (List.lookup "monday".toList d.restaurant_info.hours).getD
      "Please call for hours".toList

/-- The phone response, `f"Call us at: {self.data['restaurant_info']['phone']}"`. -/
def phoneResponse (d : ChatData) : List Char :=
  "Call us at: ".toList ++ d.restaurant_info.phone

/-- The knowledge-base fallback at the end of `handle_query`: fuzzy-match the
lowercased input against the stored question texts, then return the answer of
the first stored entry carrying the matched question text; `None` otherwise. -/
def fuzzyFallback (d : ChatData) (L : List Char) :
    Option (List Char) × ChatData :=
  let questions := d.questions.map (fun q => q.question)
  match getCloseMatches1 L questions with
  | some best =>
    match d.questions.find? (fun q => q.question == best) with
    | some qa => (some qa.answer, d)
    | none => (none, d)
  | none => (none, d)

/-- The conditionals of `handle_query` from the promotion check on. -/
def laterRules (d : ChatData) (L : List Char) :
    Option (List Char) × ChatData :=
  if promoWords.any (fun word => hasSub word L) then
    (some (get_active_promotions d), d)
  else if hasSub "popular".toList L || hasSub "recommend".toList L then
    (some (get_popular_items d), d)
  else if hasSub "hour".toList L || hasSub "open".toList L then
    (some (hoursResponse d), d)
  else if hasSub "phone".toList L || hasSub "call".toList L then
    (some (phoneResponse d), d)
  else fuzzyFallback d L

/-- Model of `handle_query`.  The second component is the store after the
call (`handle_query` only reads it). -/
def handle_query (d : ChatData) (user_input : List Char) :
    Option (List Char) × ChatData :=
  let L := pyLower user_input
  if hasSub "pizza".toList L && (hasSub "menu".toList L || hasSub "what".toList L) then
    (some (get_menu_by_category d "pizzas".toList), d)
  else if hasSub "side".toList L || hasSub "appetizer".toList L then
    (some (get_menu_by_category d "sides".toList), d)
  else if hasSub "drink".toList L || hasSub "beverage".toList L then
    (some (get_menu_by_category d "drinks".toList), d)
  else if hasSub "deliver".toList L && deliveryAreas.any (fun area => hasSub area L) then
    match deliveryAreas.find? (fun area => hasSub area L) with
    | some area => (some (check_delivery_area d area), d)
    | none => laterRules d L
  else laterRules d L

/-! ### The intent rules as an ordered list

The conditional chain of `handle_query` before the knowledge-base fallback,
presented as the ordered predicate/resolver pairs it encodes, with
first-match-wins evaluation (`List.find?`).  `handle_query_eq_router` proves
this presentation equivalent to the chain. -/

/-- A predicate/resolver pair of the intent chain. -/
structure IntentRule where
  pred : List Char → Bool
  resolve : ChatData → List Char → List Char

/-- The ordered rules of `handle_query`'s conditional chain. -/
def rulesList : List IntentRule :=
  [ { pred := fun L => hasSub "pizza".toList L &&
        (hasSub "menu".toList L || hasSub "what".toList L)
      resolve := fun d _ => get_menu_by_category d "pizzas".toList }
  , { pred := fun L => hasSub "side".toList L || hasSub "appetizer".toList L
      resolve := fun d _ => get_menu_by_category d "sides".toList }
  , { pred := fun L => hasSub "drink".toList L || hasSub "beverage".toList L
      resolve := fun d _ => get_menu_by_category d "drinks".toList }
  , { pred := fun L => hasSub "deliver".toList L &&
        deliveryAreas.any (fun area => hasSub area L)
      resolve := fun d L =>
        check_delivery_area d
          ((deliveryAreas.find? (fun area => hasSub area L)).getD []) }
  , { pred := fun L => promoWords.any (fun word => hasSub word L)
      resolve := fun d _ => get_active_promotions d }
  , { pred := fun L => hasSub "popular".toList L || hasSub "recommend".toList L
      resolve := fun d _ => get_popular_items d }
  , { pred := fun L => hasSub "hour".toList L || hasSub "open".toList L
      resolve := fun d _ => hoursResponse d }
  , { pred := fun L => hasSub "phone".toList L || hasSub "call".toList L
      resolve := fun d _ => phoneResponse d } ]

/-- The conditional chain of `handle_query` is first-match-wins evaluation of
the ordered rule list, falling back to the knowledge base when no rule
matches. -/
lemma handle_query_eq_router (d : ChatData) (s : List Char) :
    handle_query d s =
      match rulesList.find? (fun r => r.pred (pyLower s)) with
      | some r => (some (r.resolve d (pyLower s)), d)
      | none => fuzzyFallback d (pyLower s) := by
  simp only [handle_query, laterRules, rulesList]
  cases h1 : hasSub "pizza".toList (pyLower s) &&
      (hasSub "menu".toList (pyLower s) || hasSub "what".toList (pyLower s))
  case true =>
    simp only [List.find?, h1, if_true, Bool.false_eq_true, if_false]
  cases h2 : hasSub "side".toList (pyLower s) ||
      hasSub "appetizer".toList (pyLower s)
  case true =>
    simp only [List.find?, h1, h2, if_true, Bool.false_eq_true, if_false]
  cases h3 : hasSub "drink".toList (pyLower s) ||
      hasSub "beverage".toList (pyLower s)
  case true =>
    simp only [List.find?, h1, h2, h3, if_true, Bool.false_eq_true, if_false]
  cases h4 : hasSub "deliver".toList (pyLower s) &&
      deliveryAreas.any (fun area => hasSub area (pyLower s))
  case true =>
    cases hf : deliveryAreas.find? (fun area => hasSub area (pyLower s)) with
    | some area =>
      simp only [deliveryAreas, List.find?] at hf
      simp only [deliveryAreas] at h4
      simp only [List.find?, deliveryAreas, h1, h2, h3, h4, hf,
        Option.getD_some, if_true, Bool.false_eq_true, if_false]
    | none =>
      exfalso
      rw [List.find?_eq_none] at hf
      rw [Bool.and_eq_true, List.any_eq_true] at h4
      obtain ⟨-, x, hx, hpx⟩ := h4
      exact hf x hx hpx
  cases h5 : promoWords.any (fun word => hasSub word (pyLower s))
  case true =>
    simp only [List.find?, h1, h2, h3, h4, h5, if_true, Bool.false_eq_true,
      if_false]
  cases h6 : hasSub "popular".toList (pyLower s) ||
      hasSub "recommend".toList (pyLower s)
  case true =>
    simp only [List.find?, h1, h2, h3, h4, h5, h6, if_true, Bool.false_eq_true,
      if_false]
  cases h7 : hasSub "hour".toList (pyLower s) ||
      hasSub "open".toList (pyLower s)
  case true =>
    simp only [List.find?, h1, h2, h3, h4, h5, h6, h7, if_true,
      Bool.false_eq_true, if_false]
  cases h8 : hasSub "phone".toList (pyLower s) ||
      hasSub "call".toList (pyLower s)
  case true =>
    simp only [List.find?, h1, h2, h3, h4, h5, h6, h7, h8, if_true,
      Bool.false_eq_true, if_false]
  simp only [List.find?, h1, h2, h3, h4, h5, h6, h7, h8, if_true,
    Bool.false_eq_true, if_false]

/-- `handle_query` with the delivery rule removed: the chain continues from
the menu rules directly to the promotion check. -/
def handleQueryDeliverySkipped (d : ChatData) (user_input : List Char) :
    Option (List Char) × ChatData :=
  let L := pyLower user_input
  if hasSub "pizza".toList L && (hasSub "menu".toList L || hasSub "what".toList L) then
    (some (get_menu_by_category d "pizzas".toList), d)
  else if hasSub "side".toList L || hasSub "appetizer".toList L then
    (some (get_menu_by_category d "sides".toList), d)
  else if hasSub "drink".toList L || hasSub "beverage".toList L then
    (some (get_menu_by_category d "drinks".toList), d)
  else laterRules d L

/-! ### Facts about the similarity model -/

lemma commonPrefixLen_le_left (a : List Char) :
    ∀ b, commonPrefixLen a b ≤ a.length := by
  induction a with
  | nil => intro b; cases b <;> simp [commonPrefixLen]
  | cons x xs ih =>
    intro b
    cases b with
    | nil => simp [commonPrefixLen]
    | cons y ys =>
      simp only [commonPrefixLen, List.length_cons]
      split
      · exact Nat.succ_le_succ (ih ys)
      · exact Nat.zero_le _

lemma commonPrefixLen_le_right (a : List Char) :
    ∀ b, commonPrefixLen a b ≤ b.length := by
  induction a with
  | nil => intro b; cases b <;> simp [commonPrefixLen]
  | cons x xs ih =>
    intro b
    cases b with
    | nil => simp [commonPrefixLen]
    | cons y ys =>
      simp only [commonPrefixLen, List.length_cons]
      split
      · exact Nat.succ_le_succ (ih ys)
      · exact Nat.zero_le _

lemma commonPrefixLen_take (a : List Char) :
    ∀ b, a.take (commonPrefixLen a b) = b.take (commonPrefixLen a b) := by
  induction a with
  | nil => intro b; cases b <;> simp [commonPrefixLen]
  | cons x xs ih =>
    intro b
    cases b with
    | nil => simp [commonPrefixLen]
    | cons y ys =>
      simp only [commonPrefixLen]
      split
      · next h => simp only [List.take_succ_cons, h, ih ys]
      · simp

lemma commonPrefixLen_self (a : List Char) : commonPrefixLen a a = a.length := by
  induction a with
  | nil => simp [commonPrefixLen]
  | cons x xs ih => simp [commonPrefixLen, ih]

/-- The well-formedness facts delivered by `flm`: the block fits in both
strings and really is a common block. -/
def FlmOk (a b : List Char) (r : Nat × Nat × Nat) : Prop :=
  r.1 + r.2.2 ≤ a.length ∧ r.2.1 + r.2.2 ≤ b.length ∧
    (a.drop r.1).take r.2.2 = (b.drop r.2.1).take r.2.2

lemma flm_ok (a b : List Char) : FlmOk a b (flm a b) := by
  unfold flm
  apply List.foldlRecOn
  · exact ⟨Nat.zero_le _, Nat.zero_le _, by simp⟩
  · intro best hbest i hi
    apply List.foldlRecOn
    · exact hbest
    · intro best2 hbest2 j hj
      dsimp only
      split
      · refine ⟨?_, ?_, ?_⟩
        · show i + commonPrefixLen (a.drop i) (b.drop j) ≤ a.length
          have hi2 : i < a.length := List.mem_range.mp hi
          have := commonPrefixLen_le_left (a.drop i) (b.drop j)
          simp only [List.length_drop] at this
          omega
        · show j + commonPrefixLen (a.drop i) (b.drop j) ≤ b.length
          have hj2 : j < b.length := List.mem_range.mp hj
          have := commonPrefixLen_le_right (a.drop i) (b.drop j)
          simp only [List.length_drop] at this
          omega
        · show (a.drop i).take (commonPrefixLen (a.drop i) (b.drop j)) =
            (b.drop j).take (commonPrefixLen (a.drop i) (b.drop j))
          exact commonPrefixLen_take _ _
      · exact hbest2

lemma matchesMF_fuel (fuel1 : Nat) :
    ∀ (fuel2 : Nat) (a b : List Char), a.length ≤ fuel1 → a.length ≤ fuel2 →
      matchesMF fuel1 a b = matchesMF fuel2 a b := by
  induction fuel1 with
  | zero =>
    intro fuel2 a b h1 h2
    have ha : a = [] := List.length_eq_zero.mp (Nat.le_zero.mp h1)
    subst ha
    cases fuel2 with
    | zero => rfl
    | succ f2 => simp [matchesMF, flm]
  | succ f1 ih =>
    intro fuel2 a b h1 h2
    cases fuel2 with
    | zero =>
      have ha : a = [] := List.length_eq_zero.mp (Nat.le_zero.mp h2)
      subst ha
      simp [matchesMF, flm]
    | succ f2 =>
      simp only [matchesMF]
      have hok := flm_ok a b
      unfold FlmOk at hok
      obtain ⟨hia, hjb, -⟩ := hok
      split
      · rfl
      · next hk =>
        rw [ih f2 (a.take (flm a b).1) (b.take (flm a b).2.1)
            (by simp only [List.length_take]; omega)
            (by simp only [List.length_take]; omega),
          ih f2 (a.drop ((flm a b).1 + (flm a b).2.2))
            (b.drop ((flm a b).2.1 + (flm a b).2.2))
            (by simp only [List.length_drop]; omega)
            (by simp only [List.length_drop]; omega)]

/-- Unfolding equation for `matchesM` in terms of the longest matching
block. -/
lemma matchesM_eq (a b : List Char) :
    matchesM a b =
      if (flm a b).2.2 = 0 then 0
      else
        matchesM (a.take (flm a b).1) (b.take (flm a b).2.1) + (flm a b).2.2 +
        matchesM (a.drop ((flm a b).1 + (flm a b).2.2))
          (b.drop ((flm a b).2.1 + (flm a b).2.2)) := by
  have hok := flm_ok a b
  unfold FlmOk at hok
  obtain ⟨hia, hjb, -⟩ := hok
  unfold matchesM
  cases hn : a.length with
  | zero =>
    have ha : a = [] := List.length_eq_zero.mp hn
    subst ha
    simp [matchesMF, flm]
  | succ n =>
    simp only [matchesMF]
    split
    · rfl
    · next hk =>
      rw [matchesMF_fuel n (a.take (flm a b).1).length (a.take (flm a b).1)
          (b.take (flm a b).2.1) (by simp only [List.length_take]; omega)
          le_rfl,
        matchesMF_fuel n (a.drop ((flm a b).1 + (flm a b).2.2)).length
          (a.drop ((flm a b).1 + (flm a b).2.2))
          (b.drop ((flm a b).2.1 + (flm a b).2.2))
          (by simp only [List.length_drop]; omega) le_rfl]

lemma matchesM_le (n : Nat) :
    ∀ (a b : List Char), a.length ≤ n →
      matchesM a b ≤ a.length ∧ matchesM a b ≤ b.length := by
  induction n with
  | zero =>
    intro a b h
    have ha : a = [] := List.length_eq_zero.mp (Nat.le_zero.mp h)
    subst ha
    exact ⟨Nat.le_refl _, Nat.zero_le _⟩
  | succ n ih =>
    intro a b h
    rw [matchesM_eq a b]
    have hok := flm_ok a b
    unfold FlmOk at hok
    obtain ⟨hia, hjb, -⟩ := hok
    split
    · exact ⟨Nat.zero_le _, Nat.zero_le _⟩
    · next hk =>
      have l1 := ih (a.take (flm a b).1) (b.take (flm a b).2.1)
        (by simp only [List.length_take]; omega)
      have l2 := ih (a.drop ((flm a b).1 + (flm a b).2.2))
        (b.drop ((flm a b).2.1 + (flm a b).2.2))
        (by simp only [List.length_drop]; omega)
      simp only [List.length_take, List.length_drop] at l1 l2
      constructor <;> omega

lemma matchesM_le_left (a b : List Char) : matchesM a b ≤ a.length :=
  (matchesM_le a.length a b le_rfl).1

lemma matchesM_le_right (a b : List Char) : matchesM a b ≤ b.length :=
  (matchesM_le a.length a b le_rfl).2

/-- Only equal strings attain the full matched size in both lengths. -/
lemma matchesM_full (n : Nat) :
    ∀ (a b : List Char), a.length ≤ n →
      matchesM a b = a.length → matchesM a b = b.length → a = b := by
  induction n with
  | zero =>
    intro a b h hMa hMb
    have ha : a = [] := List.length_eq_zero.mp (Nat.le_zero.mp h)
    subst ha
    have : matchesM ([] : List Char) b = 0 := rfl
    rw [this] at hMb
    exact (List.length_eq_zero.mp hMb.symm).symm
  | succ n ih =>
    intro a b h hMa hMb
    rw [matchesM_eq a b] at hMa hMb
    have hok := flm_ok a b
    unfold FlmOk at hok
    obtain ⟨hia, hjb, hblock⟩ := hok
    by_cases hk : (flm a b).2.2 = 0
    · rw [if_pos hk] at hMa hMb
      have ha : a = [] := List.length_eq_zero.mp hMa.symm
      have hb : b = [] := List.length_eq_zero.mp hMb.symm
      rw [ha, hb]
    · rw [if_neg hk] at hMa hMb
      have l1 := matchesM_le (a.take (flm a b).1).length
        (a.take (flm a b).1) (b.take (flm a b).2.1) le_rfl
      have l2 := matchesM_le (a.drop ((flm a b).1 + (flm a b).2.2)).length
        (a.drop ((flm a b).1 + (flm a b).2.2))
        (b.drop ((flm a b).2.1 + (flm a b).2.2)) le_rfl
      simp only [List.length_take, List.length_drop] at l1 l2
      have e1 : a.take (flm a b).1 = b.take (flm a b).2.1 := by
        apply ih _ _ (by simp only [List.length_take]; omega)
        · simp only [List.length_take]; omega
        · simp only [List.length_take]; omega
      have e2 : a.drop ((flm a b).1 + (flm a b).2.2) =
          b.drop ((flm a b).2.1 + (flm a b).2.2) := by
        apply ih _ _ (by simp only [List.length_drop]; omega)
        · simp only [List.length_drop]; omega
        · simp only [List.length_drop]; omega
      calc a = a.take (flm a b).1 ++
            ((a.drop (flm a b).1).take (flm a b).2.2 ++
              a.drop ((flm a b).1 + (flm a b).2.2)) := by
              rw [← List.drop_drop]
              rw [List.take_append_drop, List.take_append_drop]
        _ = b.take (flm a b).2.1 ++
            ((b.drop (flm a b).2.1).take (flm a b).2.2 ++
              b.drop ((flm a b).2.1 + (flm a b).2.2)) := by
              rw [e1, hblock, e2]
        _ = b := by
              rw [← List.drop_drop]
              rw [List.take_append_drop, List.take_append_drop]

lemma flm_self (a : List Char) (h : a ≠ []) : flm a a = (0, 0, a.length) := by
  obtain ⟨n, hn⟩ : ∃ n, a.length = n + 1 := by
    cases a with
    | nil => exact absurd rfl h
    | cons x xs => exact ⟨xs.length, rfl⟩
  have inner_keep : ∀ (i : Nat) (l : List Nat) (best : Nat × Nat × Nat),
      best.2.2 = n + 1 →
      l.foldl
        (fun best j =>
          let k := commonPrefixLen (a.drop i) (a.drop j)
          if best.2.2 < k then (i, j, k) else best)
        best = best := by
    intro i l
    induction l with
    | nil => intro best hbest; rfl
    | cons j js ihl =>
      intro best hbest
      rw [List.foldl_cons]
      have hle : commonPrefixLen (a.drop i) (a.drop j) ≤ n + 1 := by
        have := commonPrefixLen_le_left (a.drop i) (a.drop j)
        simp only [List.length_drop] at this
        omega
      dsimp only
      rw [if_neg (by omega)]
      exact ihl best hbest
  have outer_keep : ∀ (li : List Nat) (l : List Nat) (best : Nat × Nat × Nat),
      best.2.2 = n + 1 →
      l.foldl
        (fun best i =>
          li.foldl
            (fun best j =>
              let k := commonPrefixLen (a.drop i) (a.drop j)
              if best.2.2 < k then (i, j, k) else best)
            best)
        best = best := by
    intro li l
    induction l with
    | nil => intro best hbest; rfl
    | cons i is ihl =>
      intro best hbest
      rw [List.foldl_cons, inner_keep i li best hbest]
      exact ihl best hbest
  unfold flm
  rw [hn, List.range_succ_eq_map, List.foldl_cons]
  have hstep :
      (let k := commonPrefixLen (List.drop 0 a) (List.drop 0 a)
        if ((0:Nat), (0:Nat), (0:Nat)).2.2 < k then ((0:Nat), (0:Nat), k)
        else ((0:Nat), (0:Nat), (0:Nat))) = ((0:Nat), (0:Nat), n + 1) := by
    simp only [List.drop_zero, commonPrefixLen_self, hn]
    rw [if_pos (Nat.succ_pos n)]
  show List.foldl
      (fun best i =>
        List.foldl
          (fun best j =>
            let k := commonPrefixLen (a.drop i) (a.drop j)
            if best.2.2 < k then (i, j, k) else best)
          best (0 :: List.map Nat.succ (List.range n)))
      (List.foldl
        (fun best j =>
          let k := commonPrefixLen (a.drop 0) (a.drop j)
          if best.2.2 < k then (0, j, k) else best)
        (0, 0, 0) (0 :: List.map Nat.succ (List.range n)))
      (List.map Nat.succ (List.range n)) = (0, 0, n + 1)
  have hinner :
      List.foldl
        (fun (best : Nat × Nat × Nat) (j : Nat) =>
          let k := commonPrefixLen (a.drop 0) (a.drop j)
          if best.2.2 < k then ((0:Nat), j, k) else best)
        (0, 0, 0) (0 :: List.map Nat.succ (List.range n)) = (0, 0, n + 1) := by
    rw [List.foldl_cons, hstep, inner_keep 0 (List.map Nat.succ (List.range n))
      (0, 0, n + 1) rfl]
  rw [hinner, outer_keep (0 :: List.map Nat.succ (List.range n))
    (List.map Nat.succ (List.range n)) (0, 0, n + 1) rfl]

lemma matchesM_self (a : List Char) : matchesM a a = a.length := by
  by_cases h : a = []
  · subst h; rfl
  · rw [matchesM_eq, flm_self a h]
    dsimp only
    rw [if_neg (by
      intro hc
      exact h (List.length_eq_zero.mp hc))]
    simp only [List.take_zero, Nat.zero_add, List.drop_length]
    have h0 : matchesM ([] : List Char) [] = 0 := rfl
    rw [h0]
    omega

/-! ### Facts about scores and the candidate order -/

lemma scoreDen_pos (x w : List Char) : 0 < scoreDen x w := by
  unfold scoreDen
  split <;> omega

lemma scoreNum_le (x w : List Char) : scoreNum x w ≤ scoreDen x w := by
  unfold scoreNum scoreDen
  split
  · exact le_rfl
  · have h1 := matchesM_le_left x w
    have h2 := matchesM_le_right x w
    omega

lemma scoreNum_eq_iff (x w : List Char) : scoreNum x w = scoreDen x w ↔ x = w := by
  constructor
  · intro h
    unfold scoreNum scoreDen at h
    by_cases hT : x.length + w.length = 0
    · rw [List.length_eq_zero.mp (by omega : x.length = 0),
        List.length_eq_zero.mp (by omega : w.length = 0)]
    · rw [if_neg hT, if_neg hT] at h
      have h1 := matchesM_le_left x w
      have h2 := matchesM_le_right x w
      exact matchesM_full x.length x w le_rfl (by omega) (by omega)
  · intro h
    subst h
    unfold scoreNum scoreDen
    split
    · rfl
    · rw [matchesM_self]
      omega

lemma ratioQ_le_one (x w : List Char) : ratioQ x w ≤ 1 := by
  unfold ratioQ
  rw [div_le_one (by exact_mod_cast scoreDen_pos x w)]
  exact_mod_cast scoreNum_le x w

lemma ratioQ_eq_one_iff (x w : List Char) : ratioQ x w = 1 ↔ x = w := by
  unfold ratioQ
  rw [div_eq_one_iff_eq (by
    have := scoreDen_pos x w
    intro hc
    rw [show ((scoreDen x w : ℚ) = 0) ↔ scoreDen x w = 0 from Nat.cast_eq_zero] at hc
    omega)]
  rw [Nat.cast_inj]
  exact scoreNum_eq_iff x w

lemma ratioQ_lt_iff (w x y : List Char) :
    (ratioQ x w < ratioQ y w) ↔
      scoreNum x w * scoreDen y w < scoreNum y w * scoreDen x w := by
  unfold ratioQ
  rw [div_lt_div_iff₀ (by exact_mod_cast scoreDen_pos x w)
    (by exact_mod_cast scoreDen_pos y w)]
  exact_mod_cast Iff.rfl

lemma ratioQ_eq_iff (w x y : List Char) :
    (ratioQ x w = ratioQ y w) ↔
      scoreNum x w * scoreDen y w = scoreNum y w * scoreDen x w := by
  unfold ratioQ
  rw [div_eq_div_iff (by
      have := scoreDen_pos x w
      intro hc
      rw [Nat.cast_eq_zero] at hc
      omega)
    (by
      have := scoreDen_pos y w
      intro hc
      rw [Nat.cast_eq_zero] at hc
      omega)]
  exact_mod_cast Iff.rfl

lemma strLtB_irrefl (a : List Char) : strLtB a a = false := by
  induction a with
  | nil => rfl
  | cons x xs ih =>
    simp only [strLtB]
    rw [if_neg (lt_irrefl x), if_neg (lt_irrefl x)]
    exact ih

lemma strLtB_trans (a : List Char) :
    ∀ b c, strLtB a b = true → strLtB b c = true → strLtB a c = true := by
  induction a with
  | nil =>
    intro b c h1 h2
    cases b with
    | nil => exact absurd h1 (by simp [strLtB])
    | cons y ys =>
      cases c with
      | nil => exact absurd h2 (by simp [strLtB])
      | cons z zs => rfl
  | cons x xs ih =>
    intro b c h1 h2
    cases b with
    | nil => exact absurd h1 (by simp [strLtB])
    | cons y ys =>
      cases c with
      | nil => exact absurd h2 (by simp [strLtB])
      | cons z zs =>
        simp only [strLtB] at h1 h2 ⊢
        by_cases hxy : x < y
        · rw [if_pos hxy] at h1
          by_cases hyz : y < z
          · rw [if_pos (lt_trans hxy hyz)]
          · by_cases hzy : z < y
            · rw [if_neg hyz, if_pos hzy] at h2
              exact absurd h2 (by simp)
            · have : y = z := le_antisymm (not_lt.mp hzy) (not_lt.mp hyz)
              subst this
              rw [if_pos hxy]
        · by_cases hyx : y < x
          · rw [if_neg hxy, if_pos hyx] at h1
            exact absurd h1 (by simp)
          · have hxyeq : x = y := le_antisymm (not_lt.mp hyx) (not_lt.mp hxy)
            subst hxyeq
            rw [if_neg hxy, if_neg hxy] at h1
            by_cases hyz : x < z
            · rw [if_pos hyz]
            · by_cases hzy : z < x
              · rw [if_neg hyz, if_pos hzy] at h2
                exact absurd h2 (by simp)
              · have : x = z := le_antisymm (not_lt.mp hzy) (not_lt.mp hyz)
                subst this
                rw [if_neg hxy, if_neg hxy] at h2 ⊢
                exact ih ys zs h1 h2

lemma strLtB_conn (a : List Char) :
    ∀ b, strLtB a b = false → strLtB b a = false → a = b := by
  induction a with
  | nil =>
    intro b h1 h2
    cases b with
    | nil => rfl
    | cons y ys => exact absurd h1 (by simp [strLtB])
  | cons x xs ih =>
    intro b h1 h2
    cases b with
    | nil => exact absurd h2 (by simp [strLtB])
    | cons y ys =>
      simp only [strLtB] at h1 h2
      by_cases hxy : x < y
      · rw [if_pos hxy] at h1
        exact absurd h1 (by simp)
      · by_cases hyx : y < x
        · rw [if_pos hyx] at h2
          exact absurd h2 (by simp)
        · have hxyeq : x = y := le_antisymm (not_lt.mp hyx) (not_lt.mp hxy)
          subst hxyeq
          rw [if_neg hxy, if_neg hxy] at h1 h2
          rw [ih ys h1 h2]

lemma strLtB_false_trans (a : List Char) :
    ∀ b c, strLtB b a = false → strLtB c b = false → strLtB c a = false := by
  induction a with
  | nil =>
    intro b c h1 h2
    cases c <;> rfl
  | cons x xs ih =>
    intro b c h1 h2
    cases b with
    | nil => exact absurd h1 (by simp [strLtB])
    | cons y ys =>
      cases c with
      | nil => exact absurd h2 (by simp [strLtB])
      | cons z zs =>
        simp only [strLtB] at h1 h2 ⊢
        by_cases hyx : y < x
        · rw [if_pos hyx] at h1
          exact absurd h1 (by simp)
        · by_cases hzy : z < y
          · rw [if_pos hzy] at h2
            exact absurd h2 (by simp)
          · have hxz2 : ¬ z < x := by
              intro hzx
              have hle : x ≤ z := le_trans (not_lt.mp hyx) (not_lt.mp hzy)
              exact absurd hzx (not_lt.mpr hle)
            rw [if_neg hxz2]
            by_cases hxz : x < z
            · rw [if_pos hxz]
            · have hxy : x ≤ y := not_lt.mp hyx
              have hyz : y ≤ z := not_lt.mp hzy
              have hzx : z ≤ x := not_lt.mp hxz
              have hxeqy : x = y := le_antisymm hxy (le_trans hyz hzx)
              have hyeqz : y = z := le_antisymm hyz (le_trans hzx hxy)
              rw [if_neg hxz]
              rw [if_neg hyx, if_neg (by rw [hxeqy]; exact lt_irrefl y)] at h1
              rw [if_neg hzy, if_neg (by rw [hyeqz]; exact lt_irrefl z)] at h2
              exact ih ys zs h1 h2

lemma crossLt_trans {n1 d1 n2 d2 n3 d3 : Nat} (hd1 : 0 < d1) (hd2 : 0 < d2)
    (hd3 : 0 < d3) (h1 : n1 * d2 < n2 * d1) (h2 : n2 * d3 < n3 * d2) :
    n1 * d3 < n3 * d1 := by
  have a1 : n1 * d2 * d3 < n2 * d1 * d3 := mul_lt_mul_of_pos_right h1 hd3
  have a2 : n2 * d3 * d1 < n3 * d2 * d1 := mul_lt_mul_of_pos_right h2 hd1
  have key : n1 * d3 * d2 < n3 * d1 * d2 := by
    calc n1 * d3 * d2 = n1 * d2 * d3 := by ring
      _ < n2 * d1 * d3 := a1
      _ = n2 * d3 * d1 := by ring
      _ < n3 * d2 * d1 := a2
      _ = n3 * d1 * d2 := by ring
  exact Nat.lt_of_mul_lt_mul_right key

lemma crossLtEq_trans {n1 d1 n2 d2 n3 d3 : Nat} (hd1 : 0 < d1) (hd2 : 0 < d2)
    (hd3 : 0 < d3) (h1 : n1 * d2 < n2 * d1) (h2 : n2 * d3 = n3 * d2) :
    n1 * d3 < n3 * d1 := by
  have a1 : n1 * d2 * d3 < n2 * d1 * d3 := mul_lt_mul_of_pos_right h1 hd3
  have key : n1 * d3 * d2 < n3 * d1 * d2 := by
    calc n1 * d3 * d2 = n1 * d2 * d3 := by ring
      _ < n2 * d1 * d3 := a1
      _ = n2 * d3 * d1 := by ring
      _ = n3 * d2 * d1 := by rw [h2]
      _ = n3 * d1 * d2 := by ring
  exact Nat.lt_of_mul_lt_mul_right key

lemma crossEqLt_trans {n1 d1 n2 d2 n3 d3 : Nat} (hd1 : 0 < d1) (hd2 : 0 < d2)
    (hd3 : 0 < d3) (h1 : n1 * d2 = n2 * d1) (h2 : n2 * d3 < n3 * d2) :
    n1 * d3 < n3 * d1 := by
  have a2 : n2 * d3 * d1 < n3 * d2 * d1 := mul_lt_mul_of_pos_right h2 hd1
  have key : n1 * d3 * d2 < n3 * d1 * d2 := by
    calc n1 * d3 * d2 = n1 * d2 * d3 := by ring
      _ = n2 * d1 * d3 := by rw [h1]
      _ = n2 * d3 * d1 := by ring
      _ < n3 * d2 * d1 := a2
      _ = n3 * d1 * d2 := by ring
  exact Nat.lt_of_mul_lt_mul_right key

lemma crossEq_trans {n1 d1 n2 d2 n3 d3 : Nat} (hd1 : 0 < d1) (hd2 : 0 < d2)
    (hd3 : 0 < d3) (h1 : n1 * d2 = n2 * d1) (h2 : n2 * d3 = n3 * d2) :
    n1 * d3 = n3 * d1 := by
  have key : n1 * d3 * d2 = n3 * d1 * d2 := by
    calc n1 * d3 * d2 = n1 * d2 * d3 := by ring
      _ = n2 * d1 * d3 := by rw [h1]
      _ = n2 * d3 * d1 := by ring
      _ = n3 * d2 * d1 := by rw [h2]
      _ = n3 * d1 * d2 := by ring
  exact Nat.eq_of_mul_eq_mul_right hd2 key

lemma scoreLtB_true_iff (w x y : List Char) :
    scoreLtB w x y = true ↔
      scoreNum x w * scoreDen y w < scoreNum y w * scoreDen x w := by
  simp [scoreLtB]

lemma scoreLtB_false_iff (w x y : List Char) :
    scoreLtB w x y = false ↔
      scoreNum y w * scoreDen x w ≤ scoreNum x w * scoreDen y w := by
  simp [scoreLtB]

/-- Characterisation of ``not strictly greater'' in the candidate tuple
order: lower score, or equal score and not lexicographically above. -/
lemma scoreGtB_false_iff (w x y : List Char) :
    scoreGtB w x y = false ↔
      (scoreNum x w * scoreDen y w < scoreNum y w * scoreDen x w ∨
        (scoreNum x w * scoreDen y w = scoreNum y w * scoreDen x w ∧
          strLtB y x = false)) := by
  unfold scoreGtB
  cases h1 : scoreLtB w y x with
  | true =>
    rw [scoreLtB_true_iff] at h1
    simp only [if_true]
    constructor
    · intro hc; exact absurd hc (by simp)
    · rintro (hlt | ⟨heq, -⟩) <;> omega
  | false =>
    rw [scoreLtB_false_iff] at h1
    simp only [Bool.false_eq_true, if_false]
    cases h2 : scoreLtB w x y with
    | true =>
      rw [scoreLtB_true_iff] at h2
      simp only [Bool.false_eq_true, if_false]
      constructor
      · intro _; exact Or.inl h2
      · intro _; rfl
    | false =>
      rw [scoreLtB_false_iff] at h2
      simp only [Bool.false_eq_true, if_false]
      have heq : scoreNum x w * scoreDen y w = scoreNum y w * scoreDen x w :=
        le_antisymm h1 h2
      constructor
      · intro h; exact Or.inr ⟨heq, h⟩
      · rintro (hlt | ⟨-, h⟩)
        · omega
        · exact h

lemma scoreGtB_true_iff (w x y : List Char) :
    scoreGtB w x y = true ↔
      (scoreNum y w * scoreDen x w < scoreNum x w * scoreDen y w ∨
        (scoreNum x w * scoreDen y w = scoreNum y w * scoreDen x w ∧
          strLtB y x = true)) := by
  unfold scoreGtB
  cases h1 : scoreLtB w y x with
  | true =>
    rw [scoreLtB_true_iff] at h1
    simp only [if_true]
    constructor
    · intro _; exact Or.inl h1
    · intro _; trivial
  | false =>
    rw [scoreLtB_false_iff] at h1
    simp only [Bool.false_eq_true, if_false]
    cases h2 : scoreLtB w x y with
    | true =>
      rw [scoreLtB_true_iff] at h2
      simp only [Bool.false_eq_true, if_false]
      constructor
      · intro hc; exact absurd hc (by simp)
      · rintro (hlt | ⟨heq, -⟩) <;> omega
    | false =>
      rw [scoreLtB_false_iff] at h2
      simp only [Bool.false_eq_true, if_false]
      have heq : scoreNum x w * scoreDen y w = scoreNum y w * scoreDen x w :=
        le_antisymm h1 h2
      constructor
      · intro h; exact Or.inr ⟨heq, h⟩
      · rintro (hlt | ⟨-, h⟩)
        · omega
        · exact h

lemma scoreGtB_irrefl (w x : List Char) : scoreGtB w x x = false := by
  rw [scoreGtB_false_iff]
  exact Or.inr ⟨rfl, strLtB_irrefl x⟩

/-- Strict transitivity of the candidate tuple order. -/
lemma scoreGtB_trans (w x y z : List Char) (h1 : scoreGtB w x y = true)
    (h2 : scoreGtB w y z = true) : scoreGtB w x z = true := by
  rw [scoreGtB_true_iff] at h1 h2 ⊢
  have px := scoreDen_pos x w
  have py := scoreDen_pos y w
  have pz := scoreDen_pos z w
  rcases h1 with hlt1 | ⟨heq1, hstr1⟩
  · rcases h2 with hlt2 | ⟨heq2, hstr2⟩
    · exact Or.inl (crossLt_trans pz py px hlt2 hlt1)
    · exact Or.inl (crossEqLt_trans pz py px heq2.symm hlt1)
  · rcases h2 with hlt2 | ⟨heq2, hstr2⟩
    · exact Or.inl (crossLtEq_trans pz py px hlt2 heq1.symm)
    · exact Or.inr ⟨crossEq_trans px py pz heq1 heq2,
        strLtB_trans z y x hstr2 hstr1⟩

/-- Transitivity of not-strictly-greater in the candidate tuple order. -/
lemma scoreGtB_notGt_trans (w x y z : List Char)
    (h1 : scoreGtB w x y = false) (h2 : scoreGtB w y z = false) :
    scoreGtB w x z = false := by
  rw [scoreGtB_false_iff] at h1 h2 ⊢
  have px := scoreDen_pos x w
  have py := scoreDen_pos y w
  have pz := scoreDen_pos z w
  rcases h1 with hlt1 | ⟨heq1, hstr1⟩
  · rcases h2 with hlt2 | ⟨heq2, hstr2⟩
    · exact Or.inl (crossLt_trans px py pz hlt1 hlt2)
    · exact Or.inl (crossLtEq_trans px py pz hlt1 heq2)
  · rcases h2 with hlt2 | ⟨heq2, hstr2⟩
    · exact Or.inl (crossEqLt_trans px py pz heq1 hlt2)
    · exact Or.inr ⟨crossEq_trans px py pz heq1 heq2,
        strLtB_false_trans x y z hstr1 hstr2⟩

/-- No candidate tuple is strictly above the exact-duplicate tuple
`(1.0, w)`. -/
lemma scoreGtB_self_top (w x : List Char) : scoreGtB w x w = false := by
  rw [scoreGtB_false_iff]
  have hn := scoreNum_le x w
  have hw : scoreNum w w = scoreDen w w := (scoreNum_eq_iff w w).mpr rfl
  by_cases hx : scoreNum x w = scoreDen x w
  · refine Or.inr ⟨by rw [hx, hw, Nat.mul_comm], ?_⟩
    rw [(scoreNum_eq_iff x w).mp hx]
    exact strLtB_irrefl w
  · refine Or.inl ?_
    have hlt : scoreNum x w < scoreDen x w := lt_of_le_of_ne hn hx
    calc scoreNum x w * scoreDen w w < scoreDen x w * scoreDen w w :=
          mul_lt_mul_of_pos_right hlt (scoreDen_pos w w)
      _ = scoreNum w w * scoreDen x w := by rw [hw, Nat.mul_comm]

/-- Anything the exact-duplicate tuple does not strictly exceed is the
duplicate itself. -/
lemma eq_of_not_scoreGtB_self (w b : List Char)
    (h : scoreGtB w w b = false) : b = w := by
  rw [scoreGtB_false_iff] at h
  have hw : scoreNum w w = scoreDen w w := (scoreNum_eq_iff w w).mpr rfl
  have hb := scoreNum_le b w
  have pb := scoreDen_pos b w
  have pw := scoreDen_pos w w
  rcases h with hlt | ⟨heq, -⟩
  · rw [hw] at hlt
    have : scoreDen b w < scoreNum b w := by
      have h2 : scoreDen w w * scoreDen b w < scoreNum b w * scoreDen w w := hlt
      rw [Nat.mul_comm (scoreNum b w) (scoreDen w w)] at h2
      exact Nat.lt_of_mul_lt_mul_left h2
    omega
  · rw [hw] at heq
    have : scoreDen b w = scoreNum b w := by
      have h2 : scoreDen w w * scoreDen b w = scoreNum b w * scoreDen w w := heq
      rw [Nat.mul_comm (scoreNum b w) (scoreDen w w)] at h2
      exact Nat.eq_of_mul_eq_mul_left pw h2
    exact (scoreNum_eq_iff b w).mp this.symm

/-! ### Facts about the selection of the best candidate -/

lemma maxCand_go_mem (w : List Char) :
    ∀ (l : List (List Char)) (acc : Option (List Char)) (z : List Char),
      l.foldl (maxStep w) acc = some z → z ∈ l ∨ acc = some z := by
  intro l
  induction l with
  | nil => intro acc z h; exact Or.inr h
  | cons x xs ih =>
    intro acc z h
    rw [List.foldl_cons] at h
    rcases ih (maxStep w acc x) z h with hmem | hacc
    · exact Or.inl (List.mem_cons_of_mem x hmem)
    · unfold maxStep at hacc
      cases acc with
      | none =>
        injection hacc with hz
        exact Or.inl (hz ▸ List.mem_cons_self x xs)
      | some b =>
        dsimp only at hacc
        split at hacc
        · injection hacc with hz
          exact Or.inl (hz ▸ List.mem_cons_self x xs)
        · exact Or.inr hacc

lemma maxCand_go_isSome (w : List Char) :
    ∀ (l : List (List Char)) (b : List Char),
      ∃ z, l.foldl (maxStep w) (some b) = some z := by
  intro l
  induction l with
  | nil => intro b; exact ⟨b, rfl⟩
  | cons x xs ih =>
    intro b
    rw [List.foldl_cons]
    show ∃ z, xs.foldl (maxStep w) (if scoreGtB w x b then some x else some b) = some z
    split
    · exact ih x
    · exact ih b

lemma maxCand_go_ub (w : List Char) :
    ∀ (l : List (List Char)) (acc : Option (List Char)) (z : List Char),
      l.foldl (maxStep w) acc = some z →
      (∀ c ∈ l, scoreGtB w c z = false) ∧
        (∀ b, acc = some b → scoreGtB w b z = false) := by
  intro l
  induction l with
  | nil =>
    intro acc z h
    refine ⟨by intro c hc; exact absurd hc (List.not_mem_nil c), ?_⟩
    intro b hb
    rw [List.foldl_nil] at h
    rw [hb] at h
    injection h with hbz
    rw [hbz]
    exact scoreGtB_irrefl w z
  | cons x xs ih =>
    intro acc z h
    rw [List.foldl_cons] at h
    obtain ⟨hxs, hstep⟩ := ih (maxStep w acc x) z h
    have hx : scoreGtB w x z = false := by
      unfold maxStep at hstep
      cases acc with
      | none => exact hstep x rfl
      | some b =>
        dsimp only at hstep
        by_cases hg : scoreGtB w x b = true
        · rw [if_pos hg] at hstep
          exact hstep x rfl
        · rw [if_neg hg] at hstep
          have hbz := hstep b rfl
          exact scoreGtB_notGt_trans w x b z
            (by cases hv : scoreGtB w x b with
              | true => exact absurd hv hg
              | false => rfl) hbz
    refine ⟨?_, ?_⟩
    · intro c hc
      rcases List.mem_cons.mp hc with hcx | hcxs
      · rw [hcx]; exact hx
      · exact hxs c hcxs
    · intro b hb
      subst hb
      unfold maxStep at hstep
      dsimp only at hstep
      by_cases hg : scoreGtB w x b = true
      · rw [if_pos hg] at hstep
        have hxz := hstep x rfl
        cases hbz : scoreGtB w b z with
        | true => exact absurd (scoreGtB_trans w x b z hg hbz) (by rw [hxz]; simp)
        | false => rfl
      · rw [if_neg hg] at hstep
        exact hstep b rfl

lemma maxCand_go_reach (w : List Char) :
    ∀ (l : List (List Char)) (acc : Option (List Char)),
      (w ∈ l ∨ acc = some w) → l.foldl (maxStep w) acc = some w := by
  intro l
  induction l with
  | nil =>
    intro acc h
    rcases h with hmem | hacc
    · exact absurd hmem (List.not_mem_nil w)
    · rw [hacc]; rfl
  | cons x xs ih =>
    intro acc h
    rw [List.foldl_cons]
    rcases h with hmem | hacc
    · rcases List.mem_cons.mp hmem with hxw | hxs
      · subst hxw
        apply ih
        right
        unfold maxStep
        cases acc with
        | none => rfl
        | some b =>
          dsimp only
          by_cases hg : scoreGtB w w b = true
          · rw [if_pos hg]
          · rw [if_neg hg]
            have hb : b = w := eq_of_not_scoreGtB_self w b
              (by cases hv : scoreGtB w w b with
                | true => exact absurd hv hg
                | false => rfl)
            rw [hb]
      · exact ih _ (Or.inl hxs)
    · subst hacc
      apply ih
      right
      unfold maxStep
      dsimp only
      rw [if_neg (by rw [scoreGtB_self_top w x]; simp)]

lemma cutoffOK_self (w : List Char) : cutoffOK w w = true := by
  have h := (scoreNum_eq_iff w w).mpr rfl
  simp only [cutoffOK, decide_eq_true_eq]
  omega

/-- A corpus containing the normalized input itself makes the fuzzy matcher
return exactly that entry. -/
lemma getCloseMatches1_self (w : List Char) (corpus : List (List Char))
    (h : w ∈ corpus) : getCloseMatches1 w corpus = some w := by
  unfold getCloseMatches1 maxCand
  exact maxCand_go_reach w _ none
    (Or.inl (List.mem_filter.mpr ⟨h, cutoffOK_self w⟩))

/-! ###`find?` helpers -/

lemma find?_of_first {α : Type} (p : α → Bool) :
    ∀ (l : List α) (i : Nat) (hi : i < l.length),
      (∀ k (hk : k < i), p (l.get ⟨k, Nat.lt_trans hk hi⟩) = false) →
      p (l.get ⟨i, hi⟩) = true →
      l.find? p = some (l.get ⟨i, hi⟩) := by
  intro l
  induction l with
  | nil => intro i hi; exact absurd hi (by simp)
  | cons x xs ih =>
    intro i hi hbefore hp
    cases i with
    | zero => exact List.find?_cons_of_pos _ hp
    | succ n =>
      have hx : p x = false := hbefore 0 (Nat.succ_pos n)
      rw [List.find?_cons_of_neg _ (by rw [hx]; simp)]
      exact ih n (by simpa using hi)
        (fun k hk => hbefore (k + 1) (by omega)) hp

lemma find?_append_new {α : Type} (p : α → Bool) (l : List α) (x : α)
    (hl : ∀ y ∈ l, p y = false) (hx : p x = true) :
    (l ++ [x]).find? p = some x := by
  rw [List.find?_append, List.find?_eq_none.mpr (by
    intro y hy
    rw [hl y hy]
    simp)]
  simp [List.find?_cons_of_pos _ hx]

/-! ### Normalization and frame helpers -/

lemma char_toNat_ofNat {n : Nat} (h : n.isValidChar) :
    (Char.ofNat n).toNat = n := by
  unfold Char.ofNat
  rw [dif_pos h]
  rfl

lemma toLower_idem (c : Char) :
    Char.toLower (Char.toLower c) = Char.toLower c := by
  show Char.toLower (if c.toNat ≥ 65 ∧ c.toNat ≤ 90 then Char.ofNat (c.toNat + 32) else c) =
    (if c.toNat ≥ 65 ∧ c.toNat ≤ 90 then Char.ofNat (c.toNat + 32) else c)
  by_cases h : c.toNat ≥ 65 ∧ c.toNat ≤ 90
  · rw [if_pos h]
    have hv : (Char.ofNat (c.toNat + 32)).toNat = c.toNat + 32 :=
      char_toNat_ofNat (Or.inl (by omega))
    show (if _ ≥ 65 ∧ _ ≤ 90 then _ else _) = _
    rw [if_neg]
    rw [hv]
    omega
  · rw [if_neg h]
    show (if c.toNat ≥ 65 ∧ c.toNat ≤ 90 then _ else c) = c
    rw [if_neg h]

lemma pyLower_idem (s : List Char) : pyLower (pyLower s) = pyLower s := by
  induction s with
  | nil => rfl
  | cons c cs ih =>
    show Char.toLower (Char.toLower c) :: pyLower (pyLower cs) =
      Char.toLower c :: pyLower cs
    rw [toLower_idem, ih]

lemma fuzzyFallback_snd (d : ChatData) (L : List Char) :
    (fuzzyFallback d L).2 = d := by
  unfold fuzzyFallback
  dsimp only
  repeat' split
  all_goals rfl

lemma laterRules_snd (d : ChatData) (L : List Char) :
    (laterRules d L).2 = d := by
  unfold laterRules
  repeat' split
  all_goals first | rfl | exact fuzzyFallback_snd d L

lemma handle_query_snd (d : ChatData) (s : List Char) :
    (handle_query d s).2 = d := by
  unfold handle_query
  dsimp only
  repeat' split
  all_goals first | rfl | exact laterRules_snd d (pyLower s)

/-! ### The claims -/

/-- C1 counterexample: with the default store, learning the non-empty answer
`"X"` for `"any deals"` and asking the same raw text again returns the
promotion rule response, not the learned answer — the intent chain runs
before the knowledge base. -/
theorem c1_counterexample :
    "X".toList ≠ [] ∧
    (handle_query
        (learn_new_response default_data "any deals".toList "X".toList 0)
        "any deals".toList).1 =
      some "No active promotions at the moment.".toList ∧
    "No active promotions at the moment.".toList ≠ "X".toList :=
  ⟨by decide, by decide, by decide⟩

/-- C1 (amended): for every question `q` whose lowercased form fires no
intent rule and every non-empty answer `a`, if no entry already stored
carries the question text `lower q`, then `learn_new_response(q, a)` followed
by `handle_query(q)` returns exactly `a`. -/
theorem c1_learn_roundtrip (d : ChatData) (q a : List Char) (now : Nat)
    (ha : a ≠ [])
    (hnorule : ∀ r ∈ rulesList, r.pred (pyLower q) = false)
    (hnodup : ∀ qa ∈ d.questions, qa.question ≠ pyLower q) :
    (handle_query (learn_new_response d q a now) q).1 = some a := by
  rw [handle_query_eq_router,
    List.find?_eq_none.mpr (by intro r hr; rw [hnorule r hr]; simp)]
  show (fuzzyFallback (learn_new_response d q a now) (pyLower q)).1 = some a
  unfold fuzzyFallback learn_new_response
  dsimp only
  rw [List.map_append]
  rw [getCloseMatches1_self (pyLower q) _ (by simp)]
  dsimp only
  rw [find?_append_new (fun qa => qa.question == pyLower q) d.questions _
    (fun y hy => beq_eq_false_iff_ne.mpr (hnodup y hy))
    (beq_iff_eq.mpr rfl)]

/-- C1 witness. -/
theorem c1_learn_roundtrip_witness :
    ("y".toList ≠ [] ∧
      (∀ r ∈ rulesList, r.pred (pyLower "xyzzy".toList) = false) ∧
      (∀ qa ∈ default_data.questions,
        qa.question ≠ pyLower "xyzzy".toList)) ∧
    (handle_query
        (learn_new_response default_data "xyzzy".toList "y".toList 0)
        "xyzzy".toList).1 = some "y".toList :=
  ⟨⟨by decide, by decide, by decide⟩,
    c1_learn_roundtrip default_data "xyzzy".toList "y".toList 0
      (by decide) (by decide) (by decide)⟩

/-- C2 counterexample: for input `"abc"` and corpus `["abd", "abz"]` both
candidates clear the cutoff with the same score `2/3`, yet the matcher
returns `"abz"`, the lexicographically larger candidate, not `"abd"`, the
one first in corpus order. -/
theorem c2_counterexample :
    ratioQ "abd".toList "abc".toList = ratioQ "abz".toList "abc".toList ∧
    cutoffOK "abd".toList "abc".toList = true ∧
    cutoffOK "abz".toList "abc".toList = true ∧
    getCloseMatches1 "abc".toList ["abd".toList, "abz".toList] =
      some "abz".toList ∧
    "abz".toList ≠ "abd".toList :=
  ⟨(ratioQ_eq_iff "abc".toList "abd".toList "abz".toList).mpr (by decide),
    by decide, by decide, by decide, by decide⟩

/-- C2 (amended): whenever some candidate clears the cutoff, the returned
match `z` is in the corpus, clears the cutoff, and every clearing candidate
either scores strictly lower than `z` or ties `z` and is lexicographically at
most `z` (Python compares the `(score, candidate)` tuples, so the
lexicographically greatest string wins a tie; corpus order only separates
identical strings). -/
theorem c2_tie_break (w : List Char) (corpus : List (List Char))
    (x : List Char) (hx : x ∈ corpus) (hcut : cutoffOK x w = true) :
    ∃ z, getCloseMatches1 w corpus = some z ∧ z ∈ corpus ∧
      cutoffOK z w = true ∧
      ∀ c ∈ corpus, cutoffOK c w = true →
        (ratioQ c w < ratioQ z w ∨
          (ratioQ c w = ratioQ z w ∧ strLtB z c = false)) := by
  have hmemf : x ∈ corpus.filter (fun y => cutoffOK y w) :=
    List.mem_filter.mpr ⟨hx, hcut⟩
  obtain ⟨z, hz⟩ :
      ∃ z, maxCand w (corpus.filter (fun y => cutoffOK y w)) = some z := by
    cases hf : corpus.filter (fun y => cutoffOK y w) with
    | nil => rw [hf] at hmemf; exact absurd hmemf (List.not_mem_nil x)
    | cons h t =>
      unfold maxCand
      rw [List.foldl_cons]
      exact maxCand_go_isSome w t h
  have hzf : z ∈ corpus.filter (fun y => cutoffOK y w) := by
    rcases maxCand_go_mem w _ none z hz with hm | habs
    · exact hm
    · exact absurd habs (by simp)
  refine ⟨z, hz, (List.mem_filter.mp hzf).1, (List.mem_filter.mp hzf).2, ?_⟩
  intro c hc hcOK
  have hcf : c ∈ corpus.filter (fun y => cutoffOK y w) :=
    List.mem_filter.mpr ⟨hc, hcOK⟩
  have hub := (maxCand_go_ub w _ none z hz).1 c hcf
  rw [scoreGtB_false_iff] at hub
  rcases hub with hlt | ⟨heq, hstr⟩
  · exact Or.inl ((ratioQ_lt_iff w c z).mpr hlt)
  · exact Or.inr ⟨(ratioQ_eq_iff w c z).mpr heq, hstr⟩

/-- C2 witness. -/
theorem c2_tie_break_witness :
    ("abd".toList ∈ ["abd".toList, "abz".toList] ∧
      cutoffOK "abd".toList "abc".toList = true) ∧
    (∃ z, getCloseMatches1 "abc".toList ["abd".toList, "abz".toList] = some z ∧
      z ∈ ["abd".toList, "abz".toList] ∧ cutoffOK z "abc".toList = true ∧
      ∀ c ∈ ["abd".toList, "abz".toList], cutoffOK c "abc".toList = true →
        (ratioQ c "abc".toList < ratioQ z "abc".toList ∨
          (ratioQ c "abc".toList = ratioQ z "abc".toList ∧
            strLtB z c = false))) :=
  ⟨⟨by decide, by decide⟩,
    c2_tie_break "abc".toList ["abd".toList, "abz".toList] "abd".toList
      (by decide) (by decide)⟩

/-- C3: an input containing the delivery keyword but no recognized area token
never makes the delivery rule fire: the resolver behaves exactly as if the
delivery rule were absent, falling through to the later rules and the
knowledge-base fallback. -/
theorem c3_delivery_requires_area (d : ChatData) (s : List Char)
    (hdeliver : hasSub "deliver".toList (pyLower s) = true)
    (harea : ∀ area ∈ deliveryAreas, hasSub area (pyLower s) = false) :
    handle_query d s = handleQueryDeliverySkipped d s := by
  have hany : deliveryAreas.any (fun area => hasSub area (pyLower s)) = false :=
    List.any_eq_false.mpr (fun x hx => by rw [harea x hx]; simp)
  simp only [handle_query, handleQueryDeliverySkipped, hany, Bool.and_false,
    Bool.false_eq_true, if_false]

/-- C3 witness. -/
theorem c3_delivery_requires_area_witness :
    (hasSub "deliver".toList (pyLower "deliver to my house".toList) = true ∧
      ∀ area ∈ deliveryAreas,
        hasSub area (pyLower "deliver to my house".toList) = false) ∧
    handle_query default_data "deliver to my house".toList =
      handleQueryDeliverySkipped default_data
        "deliver to my house".toList :=
  ⟨⟨by decide, by decide⟩,
    c3_delivery_requires_area default_data "deliver to my house".toList
      (by decide) (by decide)⟩

/-- Store for the C4 counterexample: one learned entry `"ab" ↦ "A"`. -/
def dC4 : ChatData :=
  { default_data with
    questions := [{ question := "ab".toList, answer := "A".toList,
                    category := "general".toList, added_date := 0 }] }

/-- C4 counterexample: `handle_query` does not trim.  On the raw input
`"      AB"` (whose lowercased-and-trimmed form is `"ab"`) the resolver
returns no answer, while on the trimmed form it resolves the stored answer:
the two results differ, so `handle_query(s)` is not `handle_query` of the
lowercased and trimmed `s`. -/
theorem c4_counterexample :
    pyStrip (pyLower "      AB".toList) = "ab".toList ∧
    (handle_query dC4 "      AB".toList).1 = none ∧
    (handle_query dC4 (pyStrip (pyLower "      AB".toList))).1 =
      some "A".toList :=
  ⟨by decide, by decide, by decide⟩

/-- C4 (amended): the resolver's normalization is lowercasing only — for
every store and raw input, `handle_query(s)` equals `handle_query(lower s)`;
trimming is not part of `handle_query` (the interactive loop strips input
before calling it). -/
theorem c4_lowercase_only (d : ChatData) (s : List Char) :
    handle_query d s = handle_query d (pyLower s) := by
  simp only [handle_query, pyLower_idem]

/-- C5 (code bug): the intended default snapshot does have exactly the empty
menu categories pizzas, sides and drinks and empty zones, promotions, orders,
questions, feedback and staff notes — but on the `FileNotFoundError` path
initialization does not complete: `create_default_data` calls `save_data`,
which reads the still-unbound `self.data` attribute and raises
`AttributeError`, so start-up crashes instead of returning the default
snapshot. -/
theorem c5_startup_crash :
    chatbot_init none = Except.error PyError.attributeError ∧
    load_data none none = Except.error PyError.attributeError ∧
    save_data none = Except.error PyError.attributeError ∧
    default_data.menu =
      [("pizzas".toList, []), ("sides".toList, []), ("drinks".toList, [])] ∧
    default_data.delivery_zones = [] ∧
    default_data.promotions = [] ∧
    default_data.orders = [] ∧
    default_data.questions = [] ∧
    default_data.customer_feedback = [] ∧
    default_data.staff_notes = [] :=
  ⟨rfl, rfl, rfl, rfl, rfl, rfl, rfl, rfl, rfl, rfl⟩

/-- C6: when the `i`-th rule of the ordered chain fires and no earlier rule
does, `handle_query` returns exactly the `i`-th rule's response, regardless
of any later rules that would also match. -/
theorem c6_first_match_wins (d : ChatData) (s : List Char) (i : Nat)
    (hi : i < rulesList.length)
    (hfires : (rulesList.get ⟨i, hi⟩).pred (pyLower s) = true)
    (hbefore : ∀ k (hk : k < i),
      (rulesList.get ⟨k, Nat.lt_trans hk hi⟩).pred (pyLower s) = false) :
    (handle_query d s).1 =
      some ((rulesList.get ⟨i, hi⟩).resolve d (pyLower s)) := by
  rw [handle_query_eq_router,
    find?_of_first (fun r => r.pred (pyLower s)) rulesList i hi hbefore hfires]

/-- C6 witness: `"pizza menu deals"` fires both the pizza-menu rule (index 0)
and the promotions rule (index 4); the response is the pizza-menu one. -/
theorem c6_first_match_wins_witness :
    ((rulesList.get ⟨0, by decide⟩).pred
        (pyLower "pizza menu deals".toList) = true ∧
      (rulesList.get ⟨4, by decide⟩).pred
        (pyLower "pizza menu deals".toList) = true) ∧
    (handle_query default_data "pizza menu deals".toList).1 =
      some ((rulesList.get ⟨0, by decide⟩).resolve default_data
        (pyLower "pizza menu deals".toList)) :=
  ⟨⟨by decide, by decide⟩,
    c6_first_match_wins default_data "pizza menu deals".toList 0
      (by decide) (by decide) (fun k hk => absurd hk (Nat.not_lt_zero k))⟩

/-- C7 counterexample: `"Ab"` is a case-insensitive duplicate of the
normalized input `"ab"`, yet the matcher is case-sensitive: the pair scores
only `1/2`, fails the cutoff 0.6, and `bestMatch` returns nothing at all
rather than the duplicate with score 1.0. -/
theorem c7_counterexample :
    pyLower "Ab".toList = "ab".toList ∧
    "Ab".toList ≠ "ab".toList ∧
    getCloseMatches1 "ab".toList ["Ab".toList] = none :=
  ⟨by decide, by decide, by decide⟩

/-- C7 (amended): an exact (case-sensitive) duplicate of the input in the
corpus is always returned, with similarity score exactly 1. -/
theorem c7_exact_duplicate (w : List Char) (corpus : List (List Char))
    (h : w ∈ corpus) :
    getCloseMatches1 w corpus = some w ∧ ratioQ w w = 1 :=
  ⟨getCloseMatches1_self w corpus h, (ratioQ_eq_one_iff w w).mpr rfl⟩

/-- C7 witness. -/
theorem c7_exact_duplicate_witness :
    ("hi".toList ∈ ["hours".toList, "hi".toList]) ∧
    (getCloseMatches1 "hi".toList ["hours".toList, "hi".toList] =
        some "hi".toList ∧
      ratioQ "hi".toList "hi".toList = 1) :=
  ⟨by decide,
    c7_exact_duplicate "hi".toList ["hours".toList, "hi".toList] (by decide)⟩

/-- C8: with `N-1` orders already recorded, the next order is assigned the
identifier `ORD` followed by `N` zero-padded to three digits, and is the
`N`-th stored order (so the first order is `ORD001`, the second `ORD002`...). -/
theorem c8_sequential_order_ids (d : ChatData) (info : CustomerInfo)
    (items : List OrderItem) (now N : Nat) (hN : 1 ≤ N)
    (hlen : d.orders.length = N - 1) :
    (add_customer_order d info items now).1 = "ORD".toList ++ fmt03 N ∧
    (add_customer_order d info items now).2.orders.length = N := by
  unfold add_customer_order
  dsimp only
  have hcount : d.orders.length + 1 = N := by omega
  constructor
  · rw [hcount]
  · rw [List.length_append, List.length_cons, List.length_nil]
    omega

/-- C8 witness: the first recorded order receives `ORD001`. -/
theorem c8_sequential_order_ids_witness :
    (1 ≤ 1 ∧ default_data.orders.length = 1 - 1) ∧
    ((add_customer_order default_data {} [] 0).1 =
        "ORD".toList ++ fmt03 1 ∧
      (add_customer_order default_data {} [] 0).2.orders.length = 1) ∧
    "ORD".toList ++ fmt03 1 = "ORD001".toList :=
  ⟨⟨by decide, by decide⟩,
    c8_sequential_order_ids default_data {} [] 0 1 (by decide)
      (by decide),
    by decide⟩

/-- C9: `handle_query` never modifies the store, and `learn_new_response`
only appends one lowercased question/answer pair to `questions`, leaving
every other field unchanged. -/
theorem c9_frame (d : ChatData) (s q a : List Char) (now : Nat) :
    (handle_query d s).2 = d ∧
    learn_new_response d q a now =
      { d with
        questions := d.questions ++
          [{ question := pyLower q, answer := a,
             category := "general".toList, added_date := now }] } :=
  ⟨handle_query_snd d s, rfl⟩

/-- Store for the C10 witness: two entries with the identical question text
`"hi"` and different answers. -/
def dC10 : ChatData :=
  { default_data with
    questions :=
      [{ question := "hi".toList, answer := "a1".toList,
         category := "general".toList, added_date := 0 },
       { question := "hi".toList, answer := "a2".toList,
         category := "general".toList, added_date := 0 }] }

/-- C10: when the stored questions hold duplicate question texts with
different answers and the fuzzy fallback selects that text, `handle_query`
returns the answer of the earliest such entry, and never the later
duplicate's answer. -/
theorem c10_earliest_duplicate_wins (d : ChatData) (s t : List Char)
    (i j : Nat) (hi : i < d.questions.length) (hj : j < d.questions.length)
    (hij : i < j)
    (hqi : (d.questions.get ⟨i, hi⟩).question = t)
    (hqj : (d.questions.get ⟨j, hj⟩).question = t)
    (hans : (d.questions.get ⟨i, hi⟩).answer ≠ (d.questions.get ⟨j, hj⟩).answer)
    (hfirst : ∀ k (hk : k < i),
      (d.questions.get ⟨k, Nat.lt_trans hk hi⟩).question ≠ t)
    (hnorule : ∀ r ∈ rulesList, r.pred (pyLower s) = false)
    (hfuzzy : getCloseMatches1 (pyLower s)
      (d.questions.map (fun qa => qa.question)) = some t) :
    (handle_query d s).1 = some ((d.questions.get ⟨i, hi⟩).answer) ∧
    (handle_query d s).1 ≠ some ((d.questions.get ⟨j, hj⟩).answer) := by
  have hres : (handle_query d s).1 =
      some ((d.questions.get ⟨i, hi⟩).answer) := by
    rw [handle_query_eq_router,
      List.find?_eq_none.mpr (by intro r hr; rw [hnorule r hr]; simp)]
    show (fuzzyFallback d (pyLower s)).1 = _
    unfold fuzzyFallback
    dsimp only
    rw [hfuzzy]
    dsimp only
    rw [find?_of_first (fun qa => qa.question == t) d.questions i hi
      (fun k hk => beq_eq_false_iff_ne.mpr (hfirst k hk))
      (beq_iff_eq.mpr hqi)]
  refine ⟨hres, ?_⟩
  rw [hres]
  intro hc
  injection hc with hc
  exact hans hc

/-- C10 witness. -/
theorem c10_earliest_duplicate_wins_witness :
    ((dC10.questions.get ⟨0, by decide⟩).question = "hi".toList ∧
      (dC10.questions.get ⟨1, by decide⟩).question = "hi".toList ∧
      (dC10.questions.get ⟨0, by decide⟩).answer ≠
        (dC10.questions.get ⟨1, by decide⟩).answer ∧
      (∀ r ∈ rulesList, r.pred (pyLower "hi".toList) = false) ∧
      getCloseMatches1 (pyLower "hi".toList)
        (dC10.questions.map (fun qa => qa.question)) = some "hi".toList) ∧
    ((handle_query dC10 "hi".toList).1 =
        some ((dC10.questions.get ⟨0, by decide⟩).answer) ∧
      (handle_query dC10 "hi".toList).1 ≠
        some ((dC10.questions.get ⟨1, by decide⟩).answer)) :=
  ⟨⟨by decide, by decide, by decide, by decide, by decide⟩,
    c10_earliest_duplicate_wins dC10 "hi".toList "hi".toList 0 1
      (by decide) (by decide) (by decide) (by decide) (by decide) (by decide)
      (fun k hk => absurd hk (Nat.not_lt_zero k)) (by decide) (by decide)⟩

end PizzaBot
